import Mathlib

/-!
Shallow embedding of the image-asset pipeline from
`src/components/game/panels/CustomBuildingPanel.tsx`:
format negotiation (`getWebPPath`, `checkWebPSupport`), the bitmap loader
and cache (`loadImageDirect`, `loadImage`, `clearImageCache`), the chroma
filter (`filterBackgroundColor`) and the content-bounds analyzer
(`analyzeContentBounds`, `getContentBounds`).

Pixels are modelled as RGBA byte quadruples (ℕ components), bitmaps as a
row-major pixel list of length `width * height` (the source keeps a flat
`Uint8ClampedArray` of length `width*height*4`; a pixel at `(x, y)` lives
at flat index `y*width + x`, matching `idx = (y*width+x)*4`).
-/

/-- One RGBA pixel: the four bytes `data[idx] .. data[idx+3]` of the
source's `ImageData` buffer. -/
structure Pixel where
  r : ℕ
  g : ℕ
  b : ℕ
  a : ℕ
  deriving DecidableEq, Repr

/-- An RGB color triple, as in the source's `BACKGROUND_COLOR` constant. -/
structure RGB where
  r : ℕ
  g : ℕ
  b : ℕ
  deriving DecidableEq, Repr

/-- A decoded RGBA bitmap: `width`, `height` and a row-major pixel buffer.
The invariant `data.length = width * height` embeds the source invariant
`buffer length == width*height*4` (one `Pixel` per 4 bytes). -/
structure Bitmap where
  width : ℕ
  height : ℕ
  data : List Pixel
  size_eq : data.length = width * height

/-- Pixel at flat index `i` (out-of-range reads give the zero pixel; the
source never reads out of range thanks to the length invariant). -/
def Bitmap.pixelAt (bm : Bitmap) (i : ℕ) : Pixel :=
  bm.data.getD i ⟨0, 0, 0, 0⟩

/-- Pixel at coordinates `(x, y)`, embedding `idx = (y*width + x) * 4`. -/
def Bitmap.pixel (bm : Bitmap) (x y : ℕ) : Pixel :=
  bm.pixelAt (y * bm.width + x)

/-- The source constant `BACKGROUND_COLOR = { r: 255, g: 0, b: 0 }`. -/
def BACKGROUND_COLOR : RGB := ⟨255, 0, 0⟩

/-- The source constant `COLOR_THRESHOLD = 155`. -/
def COLOR_THRESHOLD : ℕ := 155

/-- Squared Euclidean RGB distance between a pixel and a reference color:
`(r-cr)^2 + (g-cg)^2 + (b-cb)^2`, exact in ℤ. The source computes
`Math.sqrt` of this value and compares it with the threshold; since both
sides are nonnegative, `sqrt d ≤ t ↔ d ≤ t²`, which is the executable
test used below (see `sqrt_colorDistSq_le_iff`). -/
def colorDistSq (p : Pixel) (c : RGB) : ℤ :=
  ((p.r : ℤ) - c.r) ^ 2 + ((p.g : ℤ) - c.g) ^ 2 + ((p.b : ℤ) - c.b) ^ 2

/-- Per-pixel step of `filterBackgroundColor`: if the color distance to
`BACKGROUND_COLOR` is at most `threshold`, set alpha to 0
(`data[i + 3] = 0`), else leave the pixel untouched. -/
def filterPixel (threshold : ℕ) (p : Pixel) : Pixel :=
  if colorDistSq p BACKGROUND_COLOR ≤ (threshold : ℤ) ^ 2 then
    { p with a := 0 }
  else
    p

/-- Embedding of `filterBackgroundColor(img, threshold = COLOR_THRESHOLD)`:
of identical dimensions in which every pixel within `threshold` Euclidean
RGB distance of `BACKGROUND_COLOR` is made fully transparent and every
other pixel is copied unchanged. -/
def filterBackgroundColor (bm : Bitmap) (threshold : ℕ := COLOR_THRESHOLD) :
    Bitmap where
  width := bm.width
  height := bm.height
  data := bm.data.map (filterPixel threshold)
  size_eq := by rw [List.length_map, bm.size_eq]

/-- The `ContentBounds` record of the source: inclusive pixel bounds of
the opaque content, derived dimensions, and the centering/fill metrics.
Pixel-coordinate fields are ℕ; the ratio fields (fractions of the image
size) are ℚ, the exact value of the source's floating-point divisions. -/
structure ContentBounds where
  minX : ℕ
  minY : ℕ
  maxX : ℕ
  maxY : ℕ
  contentWidth : ℕ
  contentHeight : ℕ
  centerOffsetX : ℚ
  centerOffsetY : ℚ
  contentRatioX : ℚ
  contentRatioY : ℚ
  deriving DecidableEq, Repr

/-- The loop constant `alphaThreshold = 10` — a pixel counts as content iff
`alpha > alphaThreshold`. -/
def alphaThreshold : ℕ := 10

/-- The running min/max state of the `analyzeContentBounds` scan loop:
`let minX = width; let minY = height; let maxX = 0; let maxY = 0`. -/
structure ScanState where
  minX : ℕ
  minY : ℕ
  maxX : ℕ
  maxY : ℕ
  deriving DecidableEq, Repr

/-- One iteration of the scan loop body at pixel `(x, y)`:
`if (alpha > alphaThreshold) { if (x < minX) minX = x; ... }`. -/
def scanStep (bm : Bitmap) (st : ScanState) (p : ℕ × ℕ) : ScanState :=
  if alphaThreshold < (bm.pixel p.1 p.2).a then
    ⟨min st.minX p.1, min st.minY p.2, max st.maxX p.1, max st.maxY p.2⟩
  else
    st

/-- The coordinates visited by the nested loop
`for y in [0,h) { for x in [0,w) }`, in visit order. -/
def coords (w h : ℕ) : List (ℕ × ℕ) :=
  (List.range h).flatMap fun y => (List.range w).map fun x => (x, y)

/-- The full scan of `analyzeContentBounds`: fold the loop body over every
pixel coordinate, starting from `⟨width, height, 0, 0⟩`. -/
def scanBounds (bm : Bitmap) : ScanState :=
  (coords bm.width bm.height).foldl (scanStep bm) ⟨bm.width, bm.height, 0, 0⟩

/-- The whole-image fallback record
`{minX: 0, minY: 0, maxX: width, maxY: height, contentWidth: width,
contentHeight: height, centerOffsetX: 0, centerOffsetY: 0,
contentRatioX: 1, contentRatioY: 1}` returned when no content is found
(and by the canvas-failure fallbacks). -/
def noContentRecord (w h : ℕ) : ContentBounds :=
  ⟨0, 0, w, h, w, h, 0, 0, 1, 1⟩

/-- Embedding of `analyzeContentBounds(img)`. A zero-dimension bitmap makes
`ctx.getImageData` throw `IndexSizeError`, which the source catches and
answers with the fallback record; that environment behaviour is embedded
as the explicit dimension test. Otherwise the scan runs and either the
no-content guard `minX > maxX || minY > maxY` fires (fallback record) or
the derived metrics are computed. -/
def analyzeContentBounds (bm : Bitmap) : ContentBounds :=
  let width := bm.width
  let height := bm.height
  if width = 0 ∨ height = 0 then noContentRecord width height
  else
    let st := scanBounds bm
    if st.minX > st.maxX ∨ st.minY > st.maxY then noContentRecord width height
    else
      let contentWidth := st.maxX - st.minX + 1
      let contentHeight := st.maxY - st.minY + 1
      let contentCenterX : ℚ := (st.minX : ℚ) + (contentWidth : ℚ) / 2
      let contentCenterY : ℚ := (st.minY : ℚ) + (contentHeight : ℚ) / 2
      { minX := st.minX
        minY := st.minY
        maxX := st.maxX
        maxY := st.maxY
        contentWidth := contentWidth
        contentHeight := contentHeight
        centerOffsetX := (contentCenterX - (width : ℚ) / 2) / (width : ℚ)
        centerOffsetY := (contentCenterY - (height : ℚ) / 2) / (height : ℚ)
        contentRatioX := (contentWidth : ℚ) / (width : ℚ)
        contentRatioY := (contentHeight : ℚ) / (height : ℚ) }

/-- Content predicate: the pixel at `(x, y)` has alpha above the
threshold. -/
def isContent (bm : Bitmap) (p : ℕ × ℕ) : Prop :=
  alphaThreshold < (bm.pixel p.1 p.2).a

instance (bm : Bitmap) (p : ℕ × ℕ) : Decidable (isContent bm p) :=
  inferInstanceAs (Decidable (_ < _))

/-- The environment the loader runs in: `fetch src` is the outcome of
constructing an `Image` with `img.src = src` (`some` decoded bitmap on
`onload`, `none` on `onerror`), and `probeOk` is the outcome of the
one-time WebP capability probe (`img.width > 0 && img.height > 0` on
load of the embedded test image, `false` on error — the probe result is
a `Bool`, never an error). -/
structure LoadEnv where
  fetch : String → Option Bitmap
  probeOk : Bool

/-- The module-level mutable state: `imageCache`, `contentBoundsCache`
(both keyed by source locator string) and the memoized `webpSupported`
probe result (`null` before the first probe). The caches are modelled as
association lists where insertion conses and lookup takes the first hit,
observationally `Map.set`/`Map.get`. -/
structure LoadState where
  imageCache : List (String × Bitmap)
  contentBoundsCache : List (String × ContentBounds)
  webpSupported : Option Bool

/-- Lookup `imageCache.get(k)` / `imageCache.has(k)`. -/
def cacheGet (c : List (String × Bitmap)) (k : String) : Option Bitmap :=
  (c.find? fun p => p.1 == k).map Prod.snd

/-- Lookup `contentBoundsCache.get(k)`. -/
def boundsGet (c : List (String × ContentBounds)) (k : String) :
    Option ContentBounds :=
  (c.find? fun p => p.1 == k).map Prod.snd

/-- Result of one loader call: the decoded bitmap (`none` = the promise
rejected, i.e. `DecodeError`), the state after the call, how many times
`notifyImageLoaded()` ran (each run notifies every registered listener),
and the list of locators actually fetched, in order. -/
structure LoadResult where
  res : Option Bitmap
  state : LoadState
  notified : ℕ
  trace : List String

/-- Embedding of `s.endsWith(t)`, on the character sequences (kernel-
computable, unlike `String.endsWith`). -/
def strEndsWith (s t : String) : Bool :=
  t.data.isSuffixOf s.data

/-- Drop the last `n` characters of `s` (the effect of
`replace(/\.png$/, '')` once the suffix is known to be present). -/
def strDropRight (s : String) (n : ℕ) : String :=
  ⟨s.data.take (s.data.length - n)⟩

/-- Embedding of `getWebPPath(src)`: swap a trailing `.png` for `.webp`,
else `null`.
`src.replace(/\.png$/, '.webp')` removes the final four characters and
appends `.webp`. -/
def getWebPPath (src : String) : Option String :=
  if strEndsWith src ".png" then some (strDropRight src 4 ++ ".webp")
  else none

/-- Embedding of `checkWebPSupport()`: return the memoized probe result,
otherwise run the probe once and memoize its outcome. -/
def checkWebPSupport (env : LoadEnv) (s : LoadState) : Bool × LoadState :=
  match s.webpSupported with
  | some b => (b, s)
  | none => (env.probeOk, { s with webpSupported := some env.probeOk })

/-- Embedding of `loadImageDirect(src)`: fetch `src`; on load, insert
cache under `src` and fire one `notifyImageLoaded()`; on error, reject
with no cache write and no notification. -/
def loadImageDirect (env : LoadEnv) (src : String) (s : LoadState) :
    LoadResult :=
  match env.fetch src with
  | some img =>
      ⟨some img, { s with imageCache := (src, img) :: s.imageCache }, 1, [src]⟩
  | none => ⟨none, s, 0, [src]⟩

/-- Embedding of `loadImage(src)`: cache hit returns immediately;
WebP variant, try it first when supported (caching the result under the
original `src` too), fall back to the original locator on variant
failure. -/
def loadImage (env : LoadEnv) (src : String) (s : LoadState) : LoadResult :=
  match cacheGet s.imageCache src with
  | some img => ⟨some img, s, 0, []⟩
  | none =>
      match getWebPPath src with
      | none => loadImageDirect env src s
      | some webpPath =>
          let pr := checkWebPSupport env s
          if pr.1 then
            let r1 := loadImageDirect env webpPath pr.2
            match r1.res with
            | some img =>
                ⟨some img,
                  { r1.state with imageCache := (src, img) :: r1.state.imageCache },
                  r1.notified, r1.trace⟩
            | none =>
                let r2 := loadImageDirect env src r1.state
                ⟨r2.res, r2.state, r1.notified + r2.notified,
                  r1.trace ++ r2.trace⟩
          else loadImageDirect env src pr.2

/-- Embedding of `clearImageCache()`: clear both caches
(the memoized WebP probe result is not reset). -/
def clearImageCache (s : LoadState) : LoadState :=
  { s with imageCache := [], contentBoundsCache := [] }

/-- Embedding of `getContentBounds(src, img)`: return cached bounds if
present, else analyze `img` and cache the record under `src`. -/
def getContentBounds (src : String) (img : Bitmap) (s : LoadState) :
    ContentBounds × LoadState :=
  match boundsGet s.contentBoundsCache src with
  | some cb => (cb, s)
  | none =>
      let cb := analyzeContentBounds img
      (cb, { s with contentBoundsCache := (src, cb) :: s.contentBoundsCache })

/-- A 1×1 bitmap whose pixel is the reference background color, partially
opaque. -/
def bmRedOpaque : Bitmap := ⟨1, 1, [⟨255, 0, 0, 200⟩], rfl⟩

/-- A 1×1 bitmap far from the background color. -/
def bmCyan : Bitmap := ⟨1, 1, [⟨0, 255, 255, 200⟩], rfl⟩

/-- A 1×1 fully transparent bitmap (no content pixel). -/
def bmTransparent : Bitmap := ⟨1, 1, [⟨0, 0, 0, 0⟩], rfl⟩

/-- A 1×1 fully opaque bitmap (one content pixel). -/
def bmOpaque : Bitmap := ⟨1, 1, [⟨0, 0, 0, 255⟩], rfl⟩

/-- A 2×1 bitmap whose only content pixel sits at `(1, 0)`. -/
def bmTwo : Bitmap := ⟨2, 1, [⟨0, 0, 0, 0⟩, ⟨0, 0, 0, 255⟩], rfl⟩

/-- Environment in which only `a.png` decodes (the WebP variant fails). -/
def envPngOnly : LoadEnv :=
  ⟨fun t => if t == "a.png" then some bmCyan else none, true⟩

/-- The empty initial module state. -/
def emptyState : LoadState := ⟨[], [], none⟩

/-- State whose content-bounds cache already holds a record for
`a.png`. -/
def boundsState : LoadState := ⟨[], [("a.png", noContentRecord 1 1)], none⟩

/-- The executable squared test agrees with the source's
`Math.sqrt(...) <= threshold` comparison. -/
lemma sqrt_colorDistSq_le_iff (p : Pixel) (c : RGB) (t : ℕ) :
    Real.sqrt ((colorDistSq p c : ℤ) : ℝ) ≤ (t : ℝ) ↔
      colorDistSq p c ≤ (t : ℤ) ^ 2 := by
  rw [Real.sqrt_le_left (by positivity)]
  constructor
  · intro h
    exact_mod_cast h
  · intro h
    exact_mod_cast h

lemma filterBackgroundColor_pixelAt (bm : Bitmap) (t : ℕ) (i : ℕ) :
    (filterBackgroundColor bm t).pixelAt i =
      if i < bm.data.length then filterPixel t (bm.pixelAt i)
      else ⟨0, 0, 0, 0⟩ := by
  unfold Bitmap.pixelAt filterBackgroundColor
  by_cases h : i < bm.data.length
  · simp only [h, if_true]
    rw [List.getD_eq_getElem?_getD, List.getD_eq_getElem?_getD,
      List.getElem?_map, List.getElem?_eq_getElem h]
    rfl
  · simp only [h, if_false]
    rw [List.getD_eq_getElem?_getD, List.getElem?_eq_none]
    · rfl
    · rw [List.length_map]
      omega

lemma scanStep_of_content {bm : Bitmap} {p : ℕ × ℕ} (st : ScanState)
    (hc : isContent bm p) :
    scanStep bm st p =
      ⟨min st.minX p.1, min st.minY p.2, max st.maxX p.1, max st.maxY p.2⟩ := by
  have hc' : alphaThreshold < (bm.pixel p.1 p.2).a := hc
  unfold scanStep
  rw [if_pos hc']

lemma scanStep_of_not_content {bm : Bitmap} {p : ℕ × ℕ} (st : ScanState)
    (hc : ¬ isContent bm p) : scanStep bm st p = st := by
  have hc' : ¬ alphaThreshold < (bm.pixel p.1 p.2).a := hc
  unfold scanStep
  rw [if_neg hc']

lemma foldl_scanStep_minX_le (bm : Bitmap) (l : List (ℕ × ℕ))
    (st : ScanState) : (l.foldl (scanStep bm) st).minX ≤ st.minX := by
  induction l generalizing st with
  | nil => exact le_rfl
  | cons a l ih =>
      refine (ih (scanStep bm st a)).trans ?_
      by_cases hc : isContent bm a
      · rw [scanStep_of_content st hc]
        exact min_le_left _ _
      · rw [scanStep_of_not_content st hc]

lemma foldl_scanStep_minY_le (bm : Bitmap) (l : List (ℕ × ℕ))
    (st : ScanState) : (l.foldl (scanStep bm) st).minY ≤ st.minY := by
  induction l generalizing st with
  | nil => exact le_rfl
  | cons a l ih =>
      refine (ih (scanStep bm st a)).trans ?_
      by_cases hc : isContent bm a
      · rw [scanStep_of_content st hc]
        exact min_le_left _ _
      · rw [scanStep_of_not_content st hc]

lemma foldl_scanStep_le_maxX (bm : Bitmap) (l : List (ℕ × ℕ))
    (st : ScanState) : st.maxX ≤ (l.foldl (scanStep bm) st).maxX := by
  induction l generalizing st with
  | nil => exact le_rfl
  | cons a l ih =>
      refine le_trans ?_ (ih (scanStep bm st a))
      by_cases hc : isContent bm a
      · rw [scanStep_of_content st hc]
        exact le_max_left _ _
      · rw [scanStep_of_not_content st hc]

lemma foldl_scanStep_le_maxY (bm : Bitmap) (l : List (ℕ × ℕ))
    (st : ScanState) : st.maxY ≤ (l.foldl (scanStep bm) st).maxY := by
  induction l generalizing st with
  | nil => exact le_rfl
  | cons a l ih =>
      refine le_trans ?_ (ih (scanStep bm st a))
      by_cases hc : isContent bm a
      · rw [scanStep_of_content st hc]
        exact le_max_left _ _
      · rw [scanStep_of_not_content st hc]

lemma foldl_scanStep_bounds_of_mem (bm : Bitmap) {l : List (ℕ × ℕ)}
    {p : ℕ × ℕ} (st : ScanState) (hp : p ∈ l) (hc : isContent bm p) :
    (l.foldl (scanStep bm) st).minX ≤ p.1 ∧
      (l.foldl (scanStep bm) st).minY ≤ p.2 ∧
      p.1 ≤ (l.foldl (scanStep bm) st).maxX ∧
      p.2 ≤ (l.foldl (scanStep bm) st).maxY := by
  induction l generalizing st with
  | nil => cases hp
  | cons a l ih =>
      rcases List.mem_cons.1 hp with rfl | hp'
      · rw [List.foldl_cons, scanStep_of_content st hc]
        refine ⟨(foldl_scanStep_minX_le bm l _).trans (min_le_right _ _),
          (foldl_scanStep_minY_le bm l _).trans (min_le_right _ _),
          le_trans (le_max_right st.maxX p.1)
            (foldl_scanStep_le_maxX bm l
              ⟨min st.minX p.1, min st.minY p.2, max st.maxX p.1,
                max st.maxY p.2⟩),
          le_trans (le_max_right st.maxY p.2)
            (foldl_scanStep_le_maxY bm l
              ⟨min st.minX p.1, min st.minY p.2, max st.maxX p.1,
                max st.maxY p.2⟩)⟩
      · exact ih (scanStep bm st a) hp'

lemma foldl_scanStep_minX_attained (bm : Bitmap) (l : List (ℕ × ℕ))
    (st : ScanState) :
    (l.foldl (scanStep bm) st).minX = st.minX ∨
      ∃ p ∈ l, isContent bm p ∧ (l.foldl (scanStep bm) st).minX = p.1 := by
  induction l generalizing st with
  | nil => exact Or.inl rfl
  | cons a l ih =>
      rw [List.foldl_cons]
      by_cases hc : isContent bm a
      · rw [scanStep_of_content st hc]
        rcases ih ⟨min st.minX a.1, min st.minY a.2, max st.maxX a.1,
            max st.maxY a.2⟩ with h | ⟨p, hp, hcp, hval⟩
        · rcases min_cases st.minX a.1 with ⟨hmin, _⟩ | ⟨hmin, _⟩
          · exact Or.inl (h.trans hmin)
          · exact Or.inr ⟨a, List.mem_cons_self a l, hc, h.trans hmin⟩
        · exact Or.inr ⟨p, List.mem_cons_of_mem a hp, hcp, hval⟩
      · rw [scanStep_of_not_content st hc]
        rcases ih st with h | ⟨p, hp, hcp, hval⟩
        · exact Or.inl h
        · exact Or.inr ⟨p, List.mem_cons_of_mem a hp, hcp, hval⟩

lemma foldl_scanStep_minY_attained (bm : Bitmap) (l : List (ℕ × ℕ))
    (st : ScanState) :
    (l.foldl (scanStep bm) st).minY = st.minY ∨
      ∃ p ∈ l, isContent bm p ∧ (l.foldl (scanStep bm) st).minY = p.2 := by
  induction l generalizing st with
  | nil => exact Or.inl rfl
  | cons a l ih =>
      rw [List.foldl_cons]
      by_cases hc : isContent bm a
      · rw [scanStep_of_content st hc]
        rcases ih ⟨min st.minX a.1, min st.minY a.2, max st.maxX a.1,
            max st.maxY a.2⟩ with h | ⟨p, hp, hcp, hval⟩
        · rcases min_cases st.minY a.2 with ⟨hmin, _⟩ | ⟨hmin, _⟩
          · exact Or.inl (h.trans hmin)
          · exact Or.inr ⟨a, List.mem_cons_self a l, hc, h.trans hmin⟩
        · exact Or.inr ⟨p, List.mem_cons_of_mem a hp, hcp, hval⟩
      · rw [scanStep_of_not_content st hc]
        rcases ih st with h | ⟨p, hp, hcp, hval⟩
        · exact Or.inl h
        · exact Or.inr ⟨p, List.mem_cons_of_mem a hp, hcp, hval⟩

lemma foldl_scanStep_maxX_attained (bm : Bitmap) (l : List (ℕ × ℕ))
    (st : ScanState) :
    (l.foldl (scanStep bm) st).maxX = st.maxX ∨
      ∃ p ∈ l, isContent bm p ∧ (l.foldl (scanStep bm) st).maxX = p.1 := by
  induction l generalizing st with
  | nil => exact Or.inl rfl
  | cons a l ih =>
      rw [List.foldl_cons]
      by_cases hc : isContent bm a
      · rw [scanStep_of_content st hc]
        rcases ih ⟨min st.minX a.1, min st.minY a.2, max st.maxX a.1,
            max st.maxY a.2⟩ with h | ⟨p, hp, hcp, hval⟩
        · rcases max_cases st.maxX a.1 with ⟨hmax, _⟩ | ⟨hmax, _⟩
          · exact Or.inl (h.trans hmax)
          · exact Or.inr ⟨a, List.mem_cons_self a l, hc, h.trans hmax⟩
        · exact Or.inr ⟨p, List.mem_cons_of_mem a hp, hcp, hval⟩
      · rw [scanStep_of_not_content st hc]
        rcases ih st with h | ⟨p, hp, hcp, hval⟩
        · exact Or.inl h
        · exact Or.inr ⟨p, List.mem_cons_of_mem a hp, hcp, hval⟩

lemma foldl_scanStep_maxY_attained (bm : Bitmap) (l : List (ℕ × ℕ))
    (st : ScanState) :
    (l.foldl (scanStep bm) st).maxY = st.maxY ∨
      ∃ p ∈ l, isContent bm p ∧ (l.foldl (scanStep bm) st).maxY = p.2 := by
  induction l generalizing st with
  | nil => exact Or.inl rfl
  | cons a l ih =>
      rw [List.foldl_cons]
      by_cases hc : isContent bm a
      · rw [scanStep_of_content st hc]
        rcases ih ⟨min st.minX a.1, min st.minY a.2, max st.maxX a.1,
            max st.maxY a.2⟩ with h | ⟨p, hp, hcp, hval⟩
        · rcases max_cases st.maxY a.2 with ⟨hmax, _⟩ | ⟨hmax, _⟩
          · exact Or.inl (h.trans hmax)
          · exact Or.inr ⟨a, List.mem_cons_self a l, hc, h.trans hmax⟩
        · exact Or.inr ⟨p, List.mem_cons_of_mem a hp, hcp, hval⟩
      · rw [scanStep_of_not_content st hc]
        rcases ih st with h | ⟨p, hp, hcp, hval⟩
        · exact Or.inl h
        · exact Or.inr ⟨p, List.mem_cons_of_mem a hp, hcp, hval⟩

lemma foldl_scanStep_of_no_content (bm : Bitmap) {l : List (ℕ × ℕ)}
    (st : ScanState) (h : ∀ p ∈ l, ¬ isContent bm p) :
    l.foldl (scanStep bm) st = st := by
  induction l generalizing st with
  | nil => rfl
  | cons a l ih =>
      rw [List.foldl_cons, scanStep_of_not_content st (h a (List.mem_cons_self a l)),
        ih st fun p hp => h p (List.mem_cons_of_mem a hp)]

lemma mem_coords {w h : ℕ} {p : ℕ × ℕ} :
    p ∈ coords w h ↔ p.1 < w ∧ p.2 < h := by
  obtain ⟨x, y⟩ := p
  simp only [coords, List.mem_flatMap, List.mem_map, List.mem_range,
    Prod.mk.injEq]
  constructor
  · rintro ⟨y', hy', x', hx', rfl, rfl⟩
    exact ⟨hx', hy'⟩
  · rintro ⟨hx, hy⟩
    exact ⟨y, hy, x, hx, rfl, rfl⟩

lemma scanBounds_bounds {bm : Bitmap} {x y : ℕ} (hx : x < bm.width)
    (hy : y < bm.height) (hc : isContent bm (x, y)) :
    (scanBounds bm).minX ≤ x ∧ (scanBounds bm).minY ≤ y ∧
      x ≤ (scanBounds bm).maxX ∧ y ≤ (scanBounds bm).maxY := by
  unfold scanBounds
  exact foldl_scanStep_bounds_of_mem bm _ (mem_coords.2 ⟨hx, hy⟩) hc

lemma scanBounds_minX_attained {bm : Bitmap}
    (hex : ∃ p : ℕ × ℕ, p.1 < bm.width ∧ p.2 < bm.height ∧ isContent bm p) :
    ∃ p : ℕ × ℕ, p.1 < bm.width ∧ p.2 < bm.height ∧ isContent bm p ∧
      p.1 = (scanBounds bm).minX := by
  obtain ⟨p₀, hx₀, hy₀, hc₀⟩ := hex
  rcases foldl_scanStep_minX_attained bm (coords bm.width bm.height)
      ⟨bm.width, bm.height, 0, 0⟩ with h | ⟨p, hp, hc, hval⟩
  · exfalso
    have hle := (scanBounds_bounds hx₀ hy₀ hc₀).1
    have h' : (scanBounds bm).minX = bm.width := h
    omega
  · exact ⟨p, (mem_coords.1 hp).1, (mem_coords.1 hp).2, hc, hval.symm⟩

lemma scanBounds_minY_attained {bm : Bitmap}
    (hex : ∃ p : ℕ × ℕ, p.1 < bm.width ∧ p.2 < bm.height ∧ isContent bm p) :
    ∃ p : ℕ × ℕ, p.1 < bm.width ∧ p.2 < bm.height ∧ isContent bm p ∧
      p.2 = (scanBounds bm).minY := by
  obtain ⟨p₀, hx₀, hy₀, hc₀⟩ := hex
  rcases foldl_scanStep_minY_attained bm (coords bm.width bm.height)
      ⟨bm.width, bm.height, 0, 0⟩ with h | ⟨p, hp, hc, hval⟩
  · exfalso
    have hle := (scanBounds_bounds hx₀ hy₀ hc₀).2.1
    have h' : (scanBounds bm).minY = bm.height := h
    omega
  · exact ⟨p, (mem_coords.1 hp).1, (mem_coords.1 hp).2, hc, hval.symm⟩

lemma scanBounds_maxX_attained {bm : Bitmap}
    (hex : ∃ p : ℕ × ℕ, p.1 < bm.width ∧ p.2 < bm.height ∧ isContent bm p) :
    ∃ p : ℕ × ℕ, p.1 < bm.width ∧ p.2 < bm.height ∧ isContent bm p ∧
      p.1 = (scanBounds bm).maxX := by
  obtain ⟨p₀, hx₀, hy₀, hc₀⟩ := hex
  rcases foldl_scanStep_maxX_attained bm (coords bm.width bm.height)
      ⟨bm.width, bm.height, 0, 0⟩ with h | ⟨p, hp, hc, hval⟩
  · have hle := (scanBounds_bounds hx₀ hy₀ hc₀).2.2.1
    have h' : (scanBounds bm).maxX = 0 := h
    exact ⟨p₀, hx₀, hy₀, hc₀, by omega⟩
  · exact ⟨p, (mem_coords.1 hp).1, (mem_coords.1 hp).2, hc, hval.symm⟩

lemma scanBounds_maxY_attained {bm : Bitmap}
    (hex : ∃ p : ℕ × ℕ, p.1 < bm.width ∧ p.2 < bm.height ∧ isContent bm p) :
    ∃ p : ℕ × ℕ, p.1 < bm.width ∧ p.2 < bm.height ∧ isContent bm p ∧
      p.2 = (scanBounds bm).maxY := by
  obtain ⟨p₀, hx₀, hy₀, hc₀⟩ := hex
  rcases foldl_scanStep_maxY_attained bm (coords bm.width bm.height)
      ⟨bm.width, bm.height, 0, 0⟩ with h | ⟨p, hp, hc, hval⟩
  · have hle := (scanBounds_bounds hx₀ hy₀ hc₀).2.2.2
    have h' : (scanBounds bm).maxY = 0 := h
    exact ⟨p₀, hx₀, hy₀, hc₀, by omega⟩
  · exact ⟨p, (mem_coords.1 hp).1, (mem_coords.1 hp).2, hc, hval.symm⟩

/-- With at least one content pixel, both fallback guards of
`analyzeContentBounds` are skipped and the record is built from the scan
state. -/
lemma analyzeContentBounds_content (bm : Bitmap)
    (hex : ∃ p : ℕ × ℕ, p.1 < bm.width ∧ p.2 < bm.height ∧ isContent bm p) :
    analyzeContentBounds bm =
      { minX := (scanBounds bm).minX
        minY := (scanBounds bm).minY
        maxX := (scanBounds bm).maxX
        maxY := (scanBounds bm).maxY
        contentWidth := (scanBounds bm).maxX - (scanBounds bm).minX + 1
        contentHeight := (scanBounds bm).maxY - (scanBounds bm).minY + 1
        centerOffsetX := (((scanBounds bm).minX : ℚ) +
            (((scanBounds bm).maxX - (scanBounds bm).minX + 1 : ℕ) : ℚ) / 2 -
            (bm.width : ℚ) / 2) / (bm.width : ℚ)
        centerOffsetY := (((scanBounds bm).minY : ℚ) +
            (((scanBounds bm).maxY - (scanBounds bm).minY + 1 : ℕ) : ℚ) / 2 -
            (bm.height : ℚ) / 2) / (bm.height : ℚ)
        contentRatioX :=
          (((scanBounds bm).maxX - (scanBounds bm).minX + 1 : ℕ) : ℚ) /
            (bm.width : ℚ)
        contentRatioY :=
          (((scanBounds bm).maxY - (scanBounds bm).minY + 1 : ℕ) : ℚ) /
            (bm.height : ℚ) } := by
  obtain ⟨p₀, hx₀, hy₀, hc₀⟩ := hex
  obtain ⟨hbx, hby, hbx', hby'⟩ := scanBounds_bounds hx₀ hy₀ hc₀
  have h1 : ¬ (bm.width = 0 ∨ bm.height = 0) := by omega
  have h2 : ¬ ((scanBounds bm).minX > (scanBounds bm).maxX ∨
      (scanBounds bm).minY > (scanBounds bm).maxY) := by omega
  simp only [analyzeContentBounds]
  rw [if_neg h1, if_neg h2]

/-- With no content pixel at all, `analyzeContentBounds` returns the
whole-image fallback record (either via the zero-dimension environment
fallback or via the `minX > maxX` guard). -/
lemma analyzeContentBounds_no_content (bm : Bitmap)
    (h : ∀ x y : ℕ, x < bm.width → y < bm.height →
      (bm.pixel x y).a ≤ alphaThreshold) :
    analyzeContentBounds bm = noContentRecord bm.width bm.height := by
  by_cases hw : bm.width = 0 ∨ bm.height = 0
  · simp only [analyzeContentBounds]
    rw [if_pos hw]
  · have hscan : scanBounds bm = ⟨bm.width, bm.height, 0, 0⟩ := by
      unfold scanBounds
      refine foldl_scanStep_of_no_content bm _ fun p hp hc => ?_
      obtain ⟨hx, hy⟩ := mem_coords.1 hp
      exact absurd hc (not_lt.mpr (h p.1 p.2 hx hy))
    simp only [analyzeContentBounds]
    rw [if_neg hw, hscan]
    have hcond :
        ({ minX := bm.width, minY := bm.height, maxX := 0, maxY := 0 } :
            ScanState).minX >
          ({ minX := bm.width, minY := bm.height, maxX := 0, maxY := 0 } :
            ScanState).maxX ∨
        ({ minX := bm.width, minY := bm.height, maxX := 0, maxY := 0 } :
            ScanState).minY >
          ({ minX := bm.width, minY := bm.height, maxX := 0, maxY := 0 } :
            ScanState).maxY := by
      dsimp only
      omega
    rw [if_pos hcond]


/-- Claim C1: for every input bitmap and every threshold,
`filterBackgroundColor` returns a bitmap with exactly the input's width
and height in which every pixel whose Euclidean RGB distance from the
reference background color is at most the threshold has output alpha
exactly 0 (other bytes unchanged), and every pixel whose distance exceeds
the threshold is byte-for-byte identical to the input pixel, including
its original alpha. -/
theorem filterBackgroundColor_correct (bm : Bitmap) (t : ℕ) :
    (filterBackgroundColor bm t).width = bm.width ∧
    (filterBackgroundColor bm t).height = bm.height ∧
    ∀ i : ℕ, i < bm.width * bm.height →
      (Real.sqrt ((colorDistSq (bm.pixelAt i) BACKGROUND_COLOR : ℤ) : ℝ) ≤
          (t : ℝ) →
        (filterBackgroundColor bm t).pixelAt i =
          { bm.pixelAt i with a := 0 }) ∧
      ((t : ℝ) <
          Real.sqrt ((colorDistSq (bm.pixelAt i) BACKGROUND_COLOR : ℤ) : ℝ) →
        (filterBackgroundColor bm t).pixelAt i = bm.pixelAt i) := by
  refine ⟨rfl, rfl, fun i hi => ?_⟩
  have hlen : i < bm.data.length := by
    rw [bm.size_eq]
    exact hi
  rw [filterBackgroundColor_pixelAt, if_pos hlen]
  constructor
  · intro hle
    have hcond := (sqrt_colorDistSq_le_iff (bm.pixelAt i) BACKGROUND_COLOR t).1 hle
    unfold filterPixel
    rw [if_pos hcond]
  · intro hlt
    have hcond : ¬ colorDistSq (bm.pixelAt i) BACKGROUND_COLOR ≤ (t : ℤ) ^ 2 := by
      intro hcon
      exact absurd ((sqrt_colorDistSq_le_iff (bm.pixelAt i) BACKGROUND_COLOR t).2
        hcon) (not_le.mpr hlt)
    unfold filterPixel
    rw [if_neg hcond]

/-- Witness for C1: the 1×1 background-colored bitmap at index 0, with
threshold 155, is at distance 0 ≤ 155 and comes out with alpha 0. -/
theorem filterBackgroundColor_correct_witness :
    (0 : ℕ) < bmRedOpaque.width * bmRedOpaque.height ∧
    Real.sqrt ((colorDistSq (bmRedOpaque.pixelAt 0) BACKGROUND_COLOR : ℤ) : ℝ) ≤
      ((155 : ℕ) : ℝ) ∧
    (filterBackgroundColor bmRedOpaque 155).pixelAt 0 =
      { bmRedOpaque.pixelAt 0 with a := 0 } := by
  have hsqrt :
      Real.sqrt ((colorDistSq (bmRedOpaque.pixelAt 0) BACKGROUND_COLOR : ℤ) : ℝ) ≤
        ((155 : ℕ) : ℝ) :=
    (sqrt_colorDistSq_le_iff (bmRedOpaque.pixelAt 0) BACKGROUND_COLOR 155).2
      (by decide)
  exact ⟨by decide, hsqrt,
    ((filterBackgroundColor_correct bmRedOpaque 155).2.2 0 (by decide)).1 hsqrt⟩

/-- Claim C10: `filterBackgroundColor` modifies only the alpha channel —
for every pixel the output R, G, B bytes equal the input's and the output
alpha is either the input alpha or exactly 0 — the reference color
compared against is the module constant RGB (255, 0, 0), and the
threshold defaults to the module constant 155. -/
theorem filterBackgroundColor_frame (bm : Bitmap) (t i : ℕ) :
    ((filterBackgroundColor bm t).pixelAt i).r = (bm.pixelAt i).r ∧
    ((filterBackgroundColor bm t).pixelAt i).g = (bm.pixelAt i).g ∧
    ((filterBackgroundColor bm t).pixelAt i).b = (bm.pixelAt i).b ∧
    (((filterBackgroundColor bm t).pixelAt i).a = (bm.pixelAt i).a ∨
      ((filterBackgroundColor bm t).pixelAt i).a = 0) ∧
    BACKGROUND_COLOR = ⟨255, 0, 0⟩ ∧
    COLOR_THRESHOLD = 155 ∧
    filterBackgroundColor bm = filterBackgroundColor bm COLOR_THRESHOLD := by
  by_cases hlen : i < bm.data.length
  · rw [filterBackgroundColor_pixelAt, if_pos hlen]
    unfold filterPixel
    by_cases hc : colorDistSq (bm.pixelAt i) BACKGROUND_COLOR ≤ (t : ℤ) ^ 2
    · rw [if_pos hc]
      exact ⟨rfl, rfl, rfl, Or.inr rfl, rfl, rfl, rfl⟩
    · rw [if_neg hc]
      exact ⟨rfl, rfl, rfl, Or.inl rfl, rfl, rfl, rfl⟩
  · rw [filterBackgroundColor_pixelAt, if_neg hlen]
    have hdef : bm.pixelAt i = ⟨0, 0, 0, 0⟩ := by
      unfold Bitmap.pixelAt
      exact List.getD_eq_default _ _ (by omega)
    rw [hdef]
    exact ⟨rfl, rfl, rfl, Or.inl rfl, rfl, rfl, rfl⟩

/-- Claim C2: for every bitmap with at least one pixel of alpha > 10,
`analyzeContentBounds` returns `minX, minY, maxX, maxY` equal to the
minimum and maximum x and y coordinates over exactly the pixels with
alpha > 10 (inclusive bounds: every content pixel lies within them and
each bound is attained by a content pixel), with
`contentWidth = maxX - minX + 1`, `contentHeight = maxY - minY + 1`,
`centerOffsetX = ((minX + maxX + 1)/2 - width/2) / width` (the bounding-
box midpoint, not a weighted centroid), symmetrically for Y, and
`contentRatioX = contentWidth / width`, symmetrically for Y. -/
theorem analyzeContentBounds_spec (bm : Bitmap)
    (hex : ∃ x y : ℕ, x < bm.width ∧ y < bm.height ∧
      alphaThreshold < (bm.pixel x y).a) :
    (∀ x y : ℕ, x < bm.width → y < bm.height →
        alphaThreshold < (bm.pixel x y).a →
        (analyzeContentBounds bm).minX ≤ x ∧
          x ≤ (analyzeContentBounds bm).maxX ∧
          (analyzeContentBounds bm).minY ≤ y ∧
          y ≤ (analyzeContentBounds bm).maxY) ∧
    (∃ x y : ℕ, x < bm.width ∧ y < bm.height ∧
        alphaThreshold < (bm.pixel x y).a ∧
        x = (analyzeContentBounds bm).minX) ∧
    (∃ x y : ℕ, x < bm.width ∧ y < bm.height ∧
        alphaThreshold < (bm.pixel x y).a ∧
        x = (analyzeContentBounds bm).maxX) ∧
    (∃ x y : ℕ, x < bm.width ∧ y < bm.height ∧
        alphaThreshold < (bm.pixel x y).a ∧
        y = (analyzeContentBounds bm).minY) ∧
    (∃ x y : ℕ, x < bm.width ∧ y < bm.height ∧
        alphaThreshold < (bm.pixel x y).a ∧
        y = (analyzeContentBounds bm).maxY) ∧
    (analyzeContentBounds bm).contentWidth =
      (analyzeContentBounds bm).maxX - (analyzeContentBounds bm).minX + 1 ∧
    (analyzeContentBounds bm).contentHeight =
      (analyzeContentBounds bm).maxY - (analyzeContentBounds bm).minY + 1 ∧
    (analyzeContentBounds bm).centerOffsetX =
      ((((analyzeContentBounds bm).minX : ℚ) +
          ((analyzeContentBounds bm).maxX : ℚ) + 1) / 2 -
        (bm.width : ℚ) / 2) / (bm.width : ℚ) ∧
    (analyzeContentBounds bm).centerOffsetY =
      ((((analyzeContentBounds bm).minY : ℚ) +
          ((analyzeContentBounds bm).maxY : ℚ) + 1) / 2 -
        (bm.height : ℚ) / 2) / (bm.height : ℚ) ∧
    (analyzeContentBounds bm).contentRatioX =
      ((analyzeContentBounds bm).contentWidth : ℚ) / (bm.width : ℚ) ∧
    (analyzeContentBounds bm).contentRatioY =
      ((analyzeContentBounds bm).contentHeight : ℚ) / (bm.height : ℚ) := by
  obtain ⟨x₀, y₀, hx₀, hy₀, hc₀⟩ := hex
  have hex' : ∃ p : ℕ × ℕ, p.1 < bm.width ∧ p.2 < bm.height ∧ isContent bm p :=
    ⟨(x₀, y₀), hx₀, hy₀, hc₀⟩
  have hleX : (scanBounds bm).minX ≤ (scanBounds bm).maxX := by
    obtain ⟨h1, _, h3, _⟩ := scanBounds_bounds hx₀ hy₀ hc₀
    omega
  have hleY : (scanBounds bm).minY ≤ (scanBounds bm).maxY := by
    obtain ⟨_, h2, _, h4⟩ := scanBounds_bounds hx₀ hy₀ hc₀
    omega
  have hcastX : (((scanBounds bm).maxX - (scanBounds bm).minX + 1 : ℕ) : ℚ) =
      ((scanBounds bm).maxX : ℚ) - ((scanBounds bm).minX : ℚ) + 1 := by
    push_cast [Nat.cast_sub hleX]
    ring
  have hcastY : (((scanBounds bm).maxY - (scanBounds bm).minY + 1 : ℕ) : ℚ) =
      ((scanBounds bm).maxY : ℚ) - ((scanBounds bm).minY : ℚ) + 1 := by
    push_cast [Nat.cast_sub hleY]
    ring
  rw [analyzeContentBounds_content bm hex']
  dsimp only
  refine ⟨?_, ?_, ?_, ?_, ?_, rfl, rfl, ?_, ?_, rfl, rfl⟩
  · intro x y hx hy hc
    obtain ⟨h1, h2, h3, h4⟩ := scanBounds_bounds hx hy hc
    exact ⟨h1, h3, h2, h4⟩
  · obtain ⟨p, hp1, hp2, hpc, hpv⟩ := scanBounds_minX_attained hex'
    exact ⟨p.1, p.2, hp1, hp2, hpc, hpv⟩
  · obtain ⟨p, hp1, hp2, hpc, hpv⟩ := scanBounds_maxX_attained hex'
    exact ⟨p.1, p.2, hp1, hp2, hpc, hpv⟩
  · obtain ⟨p, hp1, hp2, hpc, hpv⟩ := scanBounds_minY_attained hex'
    exact ⟨p.1, p.2, hp1, hp2, hpc, hpv⟩
  · obtain ⟨p, hp1, hp2, hpc, hpv⟩ := scanBounds_maxY_attained hex'
    exact ⟨p.1, p.2, hp1, hp2, hpc, hpv⟩
  · rw [hcastX]
    ring
  · rw [hcastY]
    ring

/-- Witness for C2: the 2×1 bitmap whose single content pixel is at
`(1, 0)`. -/
theorem analyzeContentBounds_spec_witness :
    (∃ x y : ℕ, x < bmTwo.width ∧ y < bmTwo.height ∧
        alphaThreshold < (bmTwo.pixel x y).a) ∧
    (analyzeContentBounds bmTwo).minX = 1 ∧
    (analyzeContentBounds bmTwo).centerOffsetX = 1 / 4 := by
  refine ⟨⟨1, 0, by decide, by decide, by decide⟩, by decide, ?_⟩
  have h := (analyzeContentBounds_spec bmTwo
    ⟨1, 0, by decide, by decide, by decide⟩).2.2.2.2.2.2.2.1
  rw [h]
  norm_num [show (analyzeContentBounds bmTwo).minX = 1 by decide,
    show (analyzeContentBounds bmTwo).maxX = 1 by decide,
    show bmTwo.width = 2 by decide]

/-- Claim C4: for every bitmap in which every pixel has alpha ≤ 10,
`analyzeContentBounds` returns exactly the whole-image fallback record
`{minX: 0, minY: 0, maxX: width, maxY: height, contentWidth: width,
contentHeight: height, centerOffsetX: 0, centerOffsetY: 0,
contentRatioX: 1, contentRatioY: 1}` — a defined degenerate result, not
an error. -/
theorem analyzeContentBounds_degenerate (bm : Bitmap)
    (hall : ∀ x y : ℕ, x < bm.width → y < bm.height →
      (bm.pixel x y).a ≤ alphaThreshold) :
    analyzeContentBounds bm =
      { minX := 0, minY := 0, maxX := bm.width, maxY := bm.height,
        contentWidth := bm.width, contentHeight := bm.height,
        centerOffsetX := 0, centerOffsetY := 0,
        contentRatioX := 1, contentRatioY := 1 } :=
  analyzeContentBounds_no_content bm hall

/-- Witness for C4: the 1×1 fully transparent bitmap. -/
theorem analyzeContentBounds_degenerate_witness :
    analyzeContentBounds bmTransparent =
      { minX := 0, minY := 0, maxX := 1, maxY := 1,
        contentWidth := 1, contentHeight := 1,
        centerOffsetX := 0, centerOffsetY := 0,
        contentRatioX := 1, contentRatioY := 1 } :=
  analyzeContentBounds_degenerate bmTransparent fun x y hx hy => by
    have hw : bmTransparent.width = 1 := rfl
    have hht : bmTransparent.height = 1 := rfl
    have hx0 : x = 0 := by omega
    have hy0 : y = 0 := by omega
    subst hx0
    subst hy0
    decide

/-- Counterexample to C3 as stated: on the 1×1 fully transparent bitmap
the fallback record has `maxX = width = 1`, `minX = 0` but
`contentWidth = 1 ≠ maxX - minX + 1 = 2`, so the derivation invariant
fails on the no-content fallback record. -/
theorem analyzeContentBounds_fallback_violates_derivation :
    ¬ ((analyzeContentBounds bmTransparent).contentWidth =
      (analyzeContentBounds bmTransparent).maxX -
        (analyzeContentBounds bmTransparent).minX + 1) := by
  decide

/-- Claim C3 (amended): for every bitmap with at least one pixel of
alpha > 10, the record returned by `analyzeContentBounds` satisfies
`contentWidth = maxX - minX + 1` and `contentHeight = maxY - minY + 1`
with `minX, minY, maxX, maxY` inclusive pixel bounds; the no-content
fallback record instead carries the exclusive values `maxX = width`,
`maxY = height` together with `contentWidth = width`,
`contentHeight = height`, so the derivation invariant does not hold
there. -/
theorem analyzeContentBounds_derivation_of_content (bm : Bitmap)
    (hex : ∃ x y : ℕ, x < bm.width ∧ y < bm.height ∧
      alphaThreshold < (bm.pixel x y).a) :
    (analyzeContentBounds bm).contentWidth =
      (analyzeContentBounds bm).maxX - (analyzeContentBounds bm).minX + 1 ∧
    (analyzeContentBounds bm).contentHeight =
      (analyzeContentBounds bm).maxY - (analyzeContentBounds bm).minY + 1 := by
  obtain ⟨x₀, y₀, hx₀, hy₀, hc₀⟩ := hex
  rw [analyzeContentBounds_content bm ⟨(x₀, y₀), hx₀, hy₀, hc₀⟩]
  exact ⟨rfl, rfl⟩

/-- Witness for the amended C3: the 1×1 fully opaque bitmap. -/
theorem analyzeContentBounds_derivation_of_content_witness :
    (∃ x y : ℕ, x < bmOpaque.width ∧ y < bmOpaque.height ∧
        alphaThreshold < (bmOpaque.pixel x y).a) ∧
    (analyzeContentBounds bmOpaque).contentWidth =
      (analyzeContentBounds bmOpaque).maxX -
        (analyzeContentBounds bmOpaque).minX + 1 ∧
    (analyzeContentBounds bmOpaque).contentHeight =
      (analyzeContentBounds bmOpaque).maxY -
        (analyzeContentBounds bmOpaque).minY + 1 :=
  ⟨⟨0, 0, by decide, by decide, by decide⟩,
    analyzeContentBounds_derivation_of_content bmOpaque
      ⟨0, 0, by decide, by decide, by decide⟩⟩

/-- Claim C7: for every bitmap with positive width and height, the
`centerOffsetX` and `centerOffsetY` of the record returned by
`analyzeContentBounds` lie in the closed interval [-1/2, 1/2]. -/
theorem analyzeContentBounds_centerOffset_range (bm : Bitmap)
    (hw : 0 < bm.width) (hh : 0 < bm.height) :
    -(1 / 2 : ℚ) ≤ (analyzeContentBounds bm).centerOffsetX ∧
    (analyzeContentBounds bm).centerOffsetX ≤ 1 / 2 ∧
    -(1 / 2 : ℚ) ≤ (analyzeContentBounds bm).centerOffsetY ∧
    (analyzeContentBounds bm).centerOffsetY ≤ 1 / 2 := by
  by_cases hex : ∃ p : ℕ × ℕ, p.1 < bm.width ∧ p.2 < bm.height ∧
    isContent bm p
  · obtain ⟨p₀, hx₀, hy₀, hc₀⟩ := hex
    have hex' : ∃ p : ℕ × ℕ, p.1 < bm.width ∧ p.2 < bm.height ∧
        isContent bm p := ⟨p₀, hx₀, hy₀, hc₀⟩
    obtain ⟨hb1, hb2, hb3, hb4⟩ := scanBounds_bounds hx₀ hy₀ hc₀
    have hleX : (scanBounds bm).minX ≤ (scanBounds bm).maxX := by omega
    have hleY : (scanBounds bm).minY ≤ (scanBounds bm).maxY := by omega
    obtain ⟨q, hq1, hq2, hqc, hqv⟩ := scanBounds_maxX_attained hex'
    obtain ⟨r, hr1, hr2, hrc, hrv⟩ := scanBounds_maxY_attained hex'
    have hmaxX : (scanBounds bm).maxX < bm.width := hqv ▸ hq1
    have hmaxY : (scanBounds bm).maxY < bm.height := hrv ▸ hr2
    rw [analyzeContentBounds_content bm hex']
    dsimp only
    have hcastX : (((scanBounds bm).maxX - (scanBounds bm).minX + 1 : ℕ) : ℚ) =
        ((scanBounds bm).maxX : ℚ) - ((scanBounds bm).minX : ℚ) + 1 := by
      push_cast [Nat.cast_sub hleX]
      ring
    have hcastY : (((scanBounds bm).maxY - (scanBounds bm).minY + 1 : ℕ) : ℚ) =
        ((scanBounds bm).maxY : ℚ) - ((scanBounds bm).minY : ℚ) + 1 := by
      push_cast [Nat.cast_sub hleY]
      ring
    rw [hcastX, hcastY]
    have hwQ : (0 : ℚ) < (bm.width : ℚ) := by exact_mod_cast hw
    have hhQ : (0 : ℚ) < (bm.height : ℚ) := by exact_mod_cast hh
    have hmaxXQ : ((scanBounds bm).maxX : ℚ) + 1 ≤ (bm.width : ℚ) := by
      exact_mod_cast hmaxX
    have hmaxYQ : ((scanBounds bm).maxY : ℚ) + 1 ≤ (bm.height : ℚ) := by
      exact_mod_cast hmaxY
    have hminXQ : (0 : ℚ) ≤ ((scanBounds bm).minX : ℚ) := by positivity
    have hminYQ : (0 : ℚ) ≤ ((scanBounds bm).minY : ℚ) := by positivity
    have hleXQ : ((scanBounds bm).minX : ℚ) ≤ ((scanBounds bm).maxX : ℚ) := by
      exact_mod_cast hleX
    have hleYQ : ((scanBounds bm).minY : ℚ) ≤ ((scanBounds bm).maxY : ℚ) := by
      exact_mod_cast hleY
    refine ⟨?_, ?_, ?_, ?_⟩
    · rw [le_div_iff₀ hwQ]
      linarith
    · rw [div_le_iff₀ hwQ]
      linarith
    · rw [le_div_iff₀ hhQ]
      linarith
    · rw [div_le_iff₀ hhQ]
      linarith
  · have hall : ∀ x y : ℕ, x < bm.width → y < bm.height →
        (bm.pixel x y).a ≤ alphaThreshold := fun x y hx hy =>
      not_lt.mp fun hc => hex ⟨(x, y), hx, hy, hc⟩
    rw [analyzeContentBounds_no_content bm hall]
    norm_num [noContentRecord]

/-- Witness for C7: the 1×1 opaque bitmap has both offsets equal to 0,
inside [-1/2, 1/2]. -/
theorem analyzeContentBounds_centerOffset_range_witness :
    (0 : ℕ) < bmOpaque.width ∧ (0 : ℕ) < bmOpaque.height ∧
    -(1 / 2 : ℚ) ≤ (analyzeContentBounds bmOpaque).centerOffsetX ∧
    (analyzeContentBounds bmOpaque).centerOffsetX ≤ 1 / 2 ∧
    -(1 / 2 : ℚ) ≤ (analyzeContentBounds bmOpaque).centerOffsetY ∧
    (analyzeContentBounds bmOpaque).centerOffsetY ≤ 1 / 2 := by
  have h := analyzeContentBounds_centerOffset_range bmOpaque
    (by decide) (by decide)
  exact ⟨by decide, by decide, h.1, h.2.1, h.2.2.1, h.2.2.2⟩

lemma checkWebPSupport_imageCache (env : LoadEnv) (s : LoadState) :
    (checkWebPSupport env s).2.imageCache = s.imageCache := by
  unfold checkWebPSupport
  cases s.webpSupported <;> rfl

lemma checkWebPSupport_contentBoundsCache (env : LoadEnv) (s : LoadState) :
    (checkWebPSupport env s).2.contentBoundsCache = s.contentBoundsCache := by
  unfold checkWebPSupport
  cases s.webpSupported <;> rfl

lemma loadImage_cache_hit (env : LoadEnv) (src : String) (s : LoadState)
    (img : Bitmap) (h : cacheGet s.imageCache src = some img) :
    loadImage env src s = ⟨some img, s, 0, []⟩ := by
  unfold loadImage
  rw [h]

lemma loadImage_no_webp (env : LoadEnv) (src : String) (s : LoadState)
    (hmiss : cacheGet s.imageCache src = none)
    (hpath : getWebPPath src = none) :
    loadImage env src s = loadImageDirect env src s := by
  unfold loadImage
  rw [hmiss, hpath]

lemma loadImage_webp_unsupported (env : LoadEnv) (src wp : String)
    (s : LoadState) (hmiss : cacheGet s.imageCache src = none)
    (hpath : getWebPPath src = some wp)
    (hsup : (checkWebPSupport env s).1 = false) :
    loadImage env src s = loadImageDirect env src (checkWebPSupport env s).2 := by
  unfold loadImage
  rw [hmiss, hpath]
  simp only [hsup]
  rfl

lemma loadImage_webp_hit (env : LoadEnv) (src wp : String) (s : LoadState)
    (img : Bitmap) (hmiss : cacheGet s.imageCache src = none)
    (hpath : getWebPPath src = some wp)
    (hsup : (checkWebPSupport env s).1 = true)
    (hfw : env.fetch wp = some img) :
    loadImage env src s =
      ⟨some img,
        { (checkWebPSupport env s).2 with
            imageCache :=
              (src, img) :: (wp, img) ::
                (checkWebPSupport env s).2.imageCache },
        1, [wp]⟩ := by
  unfold loadImage
  rw [hmiss, hpath]
  simp only [hsup, if_true]
  unfold loadImageDirect
  rw [hfw]

lemma loadImage_webp_fallback (env : LoadEnv) (src wp : String)
    (s : LoadState) (hmiss : cacheGet s.imageCache src = none)
    (hpath : getWebPPath src = some wp)
    (hsup : (checkWebPSupport env s).1 = true)
    (hfw : env.fetch wp = none) :
    loadImage env src s =
      ⟨(loadImageDirect env src (checkWebPSupport env s).2).res,
        (loadImageDirect env src (checkWebPSupport env s).2).state,
        (loadImageDirect env src (checkWebPSupport env s).2).notified,
        wp :: (loadImageDirect env src (checkWebPSupport env s).2).trace⟩ := by
  unfold loadImage
  rw [hmiss, hpath]
  simp only [hsup, if_true]
  conv_lhs => rw [show loadImageDirect env wp (checkWebPSupport env s).2 =
    ⟨none, (checkWebPSupport env s).2, 0, [wp]⟩ by
      unfold loadImageDirect
      rw [hfw]]
  dsimp only
  rw [Nat.zero_add]
  rfl

lemma loadImageDirect_some (env : LoadEnv) (src : String) (s : LoadState)
    (img : Bitmap) (h : env.fetch src = some img) :
    loadImageDirect env src s =
      ⟨some img, { s with imageCache := (src, img) :: s.imageCache }, 1,
        [src]⟩ := by
  unfold loadImageDirect
  rw [h]

lemma loadImageDirect_none (env : LoadEnv) (src : String) (s : LoadState)
    (h : env.fetch src = none) :
    loadImageDirect env src s = ⟨none, s, 0, [src]⟩ := by
  unfold loadImageDirect
  rw [h]

/-- Claim C5: a cache-miss `loadImage` fails (rejects with the decode
error) exactly when the original fetch fails and every attempted
alternate-variant fetch fails too; on total failure nothing is inserted
into the bitmap cache and zero load notifications fire; on every
successful fetch-and-decode load, exactly one load notification fires. -/
theorem loadImage_failure_spec (env : LoadEnv) (src : String) (s : LoadState)
    (hmiss : cacheGet s.imageCache src = none) :
    ((loadImage env src s).res = none ↔
      env.fetch src = none ∧
      ∀ wp : String, getWebPPath src = some wp →
        (checkWebPSupport env s).1 = true → env.fetch wp = none) ∧
    ((loadImage env src s).res = none →
      (loadImage env src s).state.imageCache = s.imageCache ∧
      (loadImage env src s).notified = 0) ∧
    (∀ img : Bitmap, (loadImage env src s).res = some img →
      (loadImage env src s).notified = 1) := by
  cases hpath : getWebPPath src with
  | none =>
      rw [loadImage_no_webp env src s hmiss hpath]
      cases hfs : env.fetch src with
      | some img =>
          rw [loadImageDirect_some env src s img hfs]
          refine ⟨by simp [hfs], ?_, fun img' h => rfl⟩
          intro h
          simp at h
      | none =>
          rw [loadImageDirect_none env src s hfs]
          refine ⟨?_, fun _ => ⟨rfl, rfl⟩, ?_⟩
          · constructor
            · intro _
              refine ⟨rfl, fun wp hwp _ => ?_⟩
              simp at hwp
            · intro _
              rfl
          · intro img' h
            simp at h
  | some wp =>
      cases hsup : (checkWebPSupport env s).1 with
      | false =>
          rw [loadImage_webp_unsupported env src wp s hmiss hpath hsup]
          cases hfs : env.fetch src with
          | some img =>
              rw [loadImageDirect_some env src _ img hfs]
              refine ⟨by simp [hfs], ?_, fun img' h => rfl⟩
              intro h
              simp at h
          | none =>
              rw [loadImageDirect_none env src _ hfs]
              refine ⟨?_, ?_, ?_⟩
              · constructor
                · intro _
                  refine ⟨rfl, fun wp' _ htrue => ?_⟩
                  simp at htrue
                · intro _
                  rfl
              · intro _
                exact ⟨checkWebPSupport_imageCache env s, rfl⟩
              · intro img' h
                simp at h
      | true =>
          cases hfw : env.fetch wp with
          | some img =>
              rw [loadImage_webp_hit env src wp s img hmiss hpath hsup hfw]
              refine ⟨?_, ?_, fun img' h => rfl⟩
              · constructor
                · intro h
                  simp at h
                · rintro ⟨h1, h2⟩
                  have hcontra := h2 wp rfl rfl
                  rw [hfw] at hcontra
                  simp at hcontra
              · intro h
                simp at h
          | none =>
              rw [loadImage_webp_fallback env src wp s hmiss hpath hsup hfw]
              cases hfs : env.fetch src with
              | some img =>
                  rw [loadImageDirect_some env src _ img hfs]
                  refine ⟨by simp [hfs], ?_, fun img' h => rfl⟩
                  intro h
                  simp at h
              | none =>
                  rw [loadImageDirect_none env src _ hfs]
                  refine ⟨?_, ?_, ?_⟩
                  · constructor
                    · intro _
                      refine ⟨rfl, fun wp' hwp' _ => ?_⟩
                      injection hwp' with e
                      exact e ▸ hfw
                    · intro _
                      rfl
                  · intro _
                    exact ⟨checkWebPSupport_imageCache env s, rfl⟩
                  · intro img' h
                    simp at h

/-- Witness for C5: an environment where every fetch fails and an empty
initial state; the load fails, caches nothing and notifies nobody. -/
theorem loadImage_failure_spec_witness :
    cacheGet (⟨[], [], none⟩ : LoadState).imageCache "a.png" = none ∧
    ((loadImage ⟨fun _ => none, true⟩ "a.png" ⟨[], [], none⟩).res = none ↔
      (⟨fun _ => none, true⟩ : LoadEnv).fetch "a.png" = none ∧
      ∀ wp : String, getWebPPath "a.png" = some wp →
        (checkWebPSupport ⟨fun _ => none, true⟩ ⟨[], [], none⟩).1 = true →
        (⟨fun _ => none, true⟩ : LoadEnv).fetch wp = none) ∧
    ((loadImage ⟨fun _ => none, true⟩ "a.png" ⟨[], [], none⟩).res = none →
      (loadImage ⟨fun _ => none, true⟩ "a.png"
          ⟨[], [], none⟩).state.imageCache =
        (⟨[], [], none⟩ : LoadState).imageCache ∧
      (loadImage ⟨fun _ => none, true⟩ "a.png" ⟨[], [], none⟩).notified = 0) ∧
    (∀ img : Bitmap,
      (loadImage ⟨fun _ => none, true⟩ "a.png" ⟨[], [], none⟩).res =
        some img →
      (loadImage ⟨fun _ => none, true⟩ "a.png" ⟨[], [], none⟩).notified = 1) :=
  ⟨rfl, loadImage_failure_spec ⟨fun _ => none, true⟩ "a.png" ⟨[], [], none⟩ rfl⟩

lemma cacheGet_cons_self (c : List (String × Bitmap)) (k : String)
    (v : Bitmap) : cacheGet ((k, v) :: c) k = some v := by
  unfold cacheGet
  rw [List.find?_cons_of_pos _ (by simp)]
  rfl

/-- Every successful `loadImage` leaves the decoded bitmap in the image
cache under the original locator key, whichever path succeeded. -/
lemma loadImage_res_some_cacheGet (env : LoadEnv) (src : String)
    (s : LoadState) (img : Bitmap)
    (h : (loadImage env src s).res = some img) :
    cacheGet (loadImage env src s).state.imageCache src = some img := by
  cases hcache : cacheGet s.imageCache src with
  | some img' =>
      rw [loadImage_cache_hit env src s img' hcache] at h ⊢
      dsimp only at h ⊢
      injection h with e
      rw [hcache, e]
  | none =>
      cases hpath : getWebPPath src with
      | none =>
          rw [loadImage_no_webp env src s hcache hpath] at h ⊢
          cases hfs : env.fetch src with
          | some img' =>
              rw [loadImageDirect_some env src s img' hfs] at h ⊢
              dsimp only at h ⊢
              injection h with e
              rw [← e]
              exact cacheGet_cons_self _ _ _
          | none =>
              rw [loadImageDirect_none env src s hfs] at h
              simp at h
      | some wp =>
          cases hsup : (checkWebPSupport env s).1 with
          | false =>
              rw [loadImage_webp_unsupported env src wp s hcache hpath hsup]
                at h ⊢
              cases hfs : env.fetch src with
              | some img' =>
                  rw [loadImageDirect_some env src _ img' hfs] at h ⊢
                  dsimp only at h ⊢
                  injection h with e
                  rw [← e]
                  exact cacheGet_cons_self _ _ _
              | none =>
                  rw [loadImageDirect_none env src _ hfs] at h
                  simp at h
          | true =>
              cases hfw : env.fetch wp with
              | some img' =>
                  rw [loadImage_webp_hit env src wp s img' hcache hpath hsup
                    hfw] at h ⊢
                  dsimp only at h ⊢
                  injection h with e
                  rw [← e]
                  exact cacheGet_cons_self _ _ _
              | none =>
                  rw [loadImage_webp_fallback env src wp s hcache hpath hsup
                    hfw] at h ⊢
                  cases hfs : env.fetch src with
                  | some img' =>
                      rw [loadImageDirect_some env src _ img' hfs] at h ⊢
                      dsimp only at h ⊢
                      injection h with e
                      rw [← e]
                      exact cacheGet_cons_self _ _ _
                  | none =>
                      rw [loadImageDirect_none env src _ hfs] at h
                      simp at h

/-- Every cache-miss `loadImage` fetches at least one locator. -/
lemma loadImage_miss_trace_ne_nil (env : LoadEnv) (src : String)
    (s : LoadState) (hmiss : cacheGet s.imageCache src = none) :
    (loadImage env src s).trace ≠ [] := by
  cases hpath : getWebPPath src with
  | none =>
      rw [loadImage_no_webp env src s hmiss hpath]
      cases hfs : env.fetch src with
      | some img =>
          rw [loadImageDirect_some env src s img hfs]
          simp
      | none =>
          rw [loadImageDirect_none env src s hfs]
          simp
  | some wp =>
      cases hsup : (checkWebPSupport env s).1 with
      | false =>
          rw [loadImage_webp_unsupported env src wp s hmiss hpath hsup]
          cases hfs : env.fetch src with
          | some img =>
              rw [loadImageDirect_some env src _ img hfs]
              simp
          | none =>
              rw [loadImageDirect_none env src _ hfs]
              simp
      | true =>
          cases hfw : env.fetch wp with
          | some img =>
              rw [loadImage_webp_hit env src wp s img hmiss hpath hsup hfw]
              simp
          | none =>
              rw [loadImage_webp_fallback env src wp s hmiss hpath hsup hfw]
              simp

/-- Claim C6: after every successful `loadImage` — via the alternate
variant or via the original-locator fallback — the decoded bitmap is
cached under the original locator key; a subsequent load of the same
locator returns the same bitmap with no fetch, no notification and no
state change; and after `clearImageCache` a subsequent load fetches
again. -/
theorem loadImage_cache_spec (env : LoadEnv) (src : String) (s : LoadState)
    (img : Bitmap) (h : (loadImage env src s).res = some img) :
    cacheGet (loadImage env src s).state.imageCache src = some img ∧
    (∀ env2 : LoadEnv, loadImage env2 src (loadImage env src s).state =
      ⟨some img, (loadImage env src s).state, 0, []⟩) ∧
    (∀ env2 : LoadEnv,
      (loadImage env2 src
        (clearImageCache (loadImage env src s).state)).trace ≠ []) := by
  have hget := loadImage_res_some_cacheGet env src s img h
  refine ⟨hget, fun env2 => loadImage_cache_hit env2 src _ img hget,
    fun env2 => loadImage_miss_trace_ne_nil env2 src _ rfl⟩

/-- Witness for C6: loading `a.png` in an environment where the WebP
variant fails succeeds via the fallback and caches under `a.png`. -/
theorem loadImage_cache_spec_witness :
    (loadImage envPngOnly "a.png" emptyState).res = some bmCyan ∧
    cacheGet (loadImage envPngOnly "a.png" emptyState).state.imageCache
      "a.png" = some bmCyan :=
  ⟨rfl, (loadImage_cache_spec envPngOnly "a.png" emptyState bmCyan rfl).1⟩

/-- Claim C8: the format negotiator never fails — a locator not ending in
`.png` skips the alternate path entirely (the load then uses the original
locator unchanged); a `.png` locator gets the sibling `.webp` locator,
attempted only when the one-time support probe succeeds; and the probe
result is memoized for the remainder of the process, with probe failure
meaning "not supported", not an error. -/
theorem formatNegotiator_spec (src : String) :
    (strEndsWith src ".png" = false → getWebPPath src = none) ∧
    (strEndsWith src ".png" = true →
      getWebPPath src = some (strDropRight src 4 ++ ".webp")) ∧
    (∀ env : LoadEnv, ∀ s : LoadState,
      (checkWebPSupport env s).2.webpSupported =
        some (checkWebPSupport env s).1) ∧
    (∀ env env2 : LoadEnv, ∀ s : LoadState,
      checkWebPSupport env2 (checkWebPSupport env s).2 =
        ((checkWebPSupport env s).1, (checkWebPSupport env s).2)) ∧
    (∀ env : LoadEnv, ∀ s : LoadState, s.webpSupported = none →
      (checkWebPSupport env s).1 = env.probeOk) ∧
    (∀ env : LoadEnv, ∀ s : LoadState, getWebPPath src = none →
      cacheGet s.imageCache src = none →
      loadImage env src s = loadImageDirect env src s) ∧
    (∀ env : LoadEnv, ∀ s : LoadState, ∀ wp : String,
      getWebPPath src = some wp → (checkWebPSupport env s).1 = false →
      cacheGet s.imageCache src = none →
      loadImage env src s =
        loadImageDirect env src (checkWebPSupport env s).2) := by
  refine ⟨?_, ?_, ?_, ?_, ?_, ?_, ?_⟩
  · intro h
    simp [getWebPPath, h]
  · intro h
    simp [getWebPPath, h]
  · intro env s
    cases hws : s.webpSupported with
    | some b => simp [checkWebPSupport, hws]
    | none => simp [checkWebPSupport, hws]
  · intro env env2 s
    cases hws : s.webpSupported with
    | some b => simp [checkWebPSupport, hws]
    | none => simp [checkWebPSupport, hws]
  · intro env s h
    simp [checkWebPSupport, h]
  · intro env s hpath hmiss
    exact loadImage_no_webp env src s hmiss hpath
  · intro env s wp hpath hsup hmiss
    exact loadImage_webp_unsupported env src wp s hmiss hpath hsup

/-- Witness for C8: the locator `a.png` ends in `.png` and negotiates to
`a.webp`. -/
theorem formatNegotiator_spec_witness :
    strEndsWith "a.png" ".png" = true ∧
    getWebPPath "a.png" = some (strDropRight "a.png" 4 ++ ".webp") ∧
    getWebPPath "a.png" = some "a.webp" :=
  ⟨by decide, (formatNegotiator_spec "a.png").2.1 (by decide), by decide⟩

/-- The loader never touches the content-bounds cache. -/
lemma loadImage_contentBoundsCache (env : LoadEnv) (src : String)
    (s : LoadState) :
    (loadImage env src s).state.contentBoundsCache =
      s.contentBoundsCache := by
  cases hcache : cacheGet s.imageCache src with
  | some img => rw [loadImage_cache_hit env src s img hcache]
  | none =>
      cases hpath : getWebPPath src with
      | none =>
          rw [loadImage_no_webp env src s hcache hpath]
          cases hfs : env.fetch src with
          | some img => rw [loadImageDirect_some env src s img hfs]
          | none => rw [loadImageDirect_none env src s hfs]
      | some wp =>
          cases hsup : (checkWebPSupport env s).1 with
          | false =>
              rw [loadImage_webp_unsupported env src wp s hcache hpath hsup]
              cases hfs : env.fetch src with
              | some img =>
                  rw [loadImageDirect_some env src _ img hfs]
                  exact checkWebPSupport_contentBoundsCache env s
              | none =>
                  rw [loadImageDirect_none env src _ hfs]
                  exact checkWebPSupport_contentBoundsCache env s
          | true =>
              cases hfw : env.fetch wp with
              | some img =>
                  rw [loadImage_webp_hit env src wp s img hcache hpath hsup
                    hfw]
                  exact checkWebPSupport_contentBoundsCache env s
              | none =>
                  rw [loadImage_webp_fallback env src wp s hcache hpath hsup
                    hfw]
                  cases hfs : env.fetch src with
                  | some img =>
                      rw [loadImageDirect_some env src _ img hfs]
                      exact checkWebPSupport_contentBoundsCache env s
                  | none =>
                      rw [loadImageDirect_none env src _ hfs]
                      exact checkWebPSupport_contentBoundsCache env s

/-- Claim C9: for every locator already present in the content-bounds
cache, `getContentBounds` returns the previously computed record without
re-scanning, for every bitmap argument — even one whose pixels differ
from the bitmap originally analyzed — with the state untouched; the
bounds cache is keyed independently of the bitmap cache (`loadImage`
never changes it, `getContentBounds` never consults the bitmap cache)
and is emptied only by the explicit clear operation. -/
theorem getContentBounds_cache_spec (src : String) (s : LoadState)
    (cb : ContentBounds)
    (h : boundsGet s.contentBoundsCache src = some cb) :
    (∀ img : Bitmap, getContentBounds src img s = (cb, s)) ∧
    (∀ env : LoadEnv, ∀ src2 : String,
      (loadImage env src2 s).state.contentBoundsCache =
        s.contentBoundsCache) ∧
    (∀ img : Bitmap, ∀ src2 : String,
      List.IsSuffix s.contentBoundsCache
        (getContentBounds src2 img s).2.contentBoundsCache) ∧
    (clearImageCache s).contentBoundsCache = [] := by
  refine ⟨?_, ?_, ?_, rfl⟩
  · intro img
    unfold getContentBounds
    rw [h]
  · intro env src2
    exact loadImage_contentBoundsCache env src2 s
  · intro img src2
    unfold getContentBounds
    cases hb : boundsGet s.contentBoundsCache src2 with
    | some cb' => exact List.suffix_refl _
    | none => exact List.suffix_cons _ _

/-- Witness for C9: with `a.png` cached, `getContentBounds` returns the
cached record unchanged for two different bitmaps. -/
theorem getContentBounds_cache_spec_witness :
    boundsGet boundsState.contentBoundsCache "a.png" =
      some (noContentRecord 1 1) ∧
    getContentBounds "a.png" bmOpaque boundsState =
      (noContentRecord 1 1, boundsState) ∧
    getContentBounds "a.png" bmTransparent boundsState =
      (noContentRecord 1 1, boundsState) :=
  ⟨rfl,
    (getContentBounds_cache_spec "a.png" boundsState (noContentRecord 1 1)
      rfl).1 bmOpaque,
    (getContentBounds_cache_spec "a.png" boundsState (noContentRecord 1 1)
      rfl).1 bmTransparent⟩

